import Mathlib

/-!
Verification of the fund_fetcher reconciliation, reinvestment-simulation and
comparative-analytics engine.

The JavaScript source is embedded shallowly:

* calendar dates are modeled as natural numbers (the source stores ISO date
  strings whose lexicographic order and millisecond timestamps agree with the
  chronological order, so a single numeric coordinate is faithful);
* JavaScript floating point numbers are modeled as exact rationals, extended
  with the special values NaN, Infinity and -Infinity (type JsVal) where the
  source can actually produce them (division by zero, 0/0, multiplication by
  a null NAV, degenerate statistics);
* JavaScript objects used as date-keyed dictionaries are modeled as
  association lists where a later assignment overwrites an earlier one
  (lookupLast), and Object.keys / Set insertion order is modeled by jsKeys,
  which keeps the first occurrence of each key;
* Array.prototype.sort with the date comparator is modeled by insertionSort
  on the date coordinate; every list the source sorts has pairwise distinct
  dates, so the sorted result is the unique order-sorted permutation and the
  model does not depend on the sorting algorithm;
* Math.sqrt and Math.pow on ordinary finite inputs are irrational; the
  functions that use them take the numeric kernel as an explicit parameter
  (sqrtQ, powQ) and every verified statement holds for all instantiations,
  while the NaN / Infinity propagation around them is modeled exactly.
-/

namespace FundFetcher

/-- Model of a JavaScript number: an exact rational, NaN, Infinity or
-Infinity. -/
inductive JsVal where
  | num (q : ℚ)
  | nan
  | inf
  | neginf
  deriving DecidableEq

/-- JavaScript division of two finite numbers (negative zero is not
distinguished from zero; the source never produces a negative zero divisor). -/
def jsDivQ (a b : ℚ) : JsVal :=
  if b = 0 then (if a = 0 then JsVal.nan else if 0 < a then JsVal.inf else JsVal.neginf)
  else JsVal.num (a / b)

/-- JavaScript unary minus. -/
def jsNegV : JsVal → JsVal
  | JsVal.num q => JsVal.num (-q)
  | JsVal.nan => JsVal.nan
  | JsVal.inf => JsVal.neginf
  | JsVal.neginf => JsVal.inf

/-- JavaScript addition. -/
def jsAddV : JsVal → JsVal → JsVal
  | JsVal.nan, _ => JsVal.nan
  | JsVal.num _, JsVal.nan => JsVal.nan
  | JsVal.inf, JsVal.nan => JsVal.nan
  | JsVal.neginf, JsVal.nan => JsVal.nan
  | JsVal.num a, JsVal.num b => JsVal.num (a + b)
  | JsVal.num _, JsVal.inf => JsVal.inf
  | JsVal.num _, JsVal.neginf => JsVal.neginf
  | JsVal.inf, JsVal.num _ => JsVal.inf
  | JsVal.neginf, JsVal.num _ => JsVal.neginf
  | JsVal.inf, JsVal.inf => JsVal.inf
  | JsVal.neginf, JsVal.neginf => JsVal.neginf
  | JsVal.inf, JsVal.neginf => JsVal.nan
  | JsVal.neginf, JsVal.inf => JsVal.nan

/-- JavaScript subtraction. -/
def jsSubV (a b : JsVal) : JsVal := jsAddV a (jsNegV b)

/-- JavaScript multiplication. -/
def jsMulV : JsVal → JsVal → JsVal
  | JsVal.nan, _ => JsVal.nan
  | JsVal.num _, JsVal.nan => JsVal.nan
  | JsVal.inf, JsVal.nan => JsVal.nan
  | JsVal.neginf, JsVal.nan => JsVal.nan
  | JsVal.num a, JsVal.num b => JsVal.num (a * b)
  | JsVal.num a, JsVal.inf =>
    if a = 0 then JsVal.nan else if 0 < a then JsVal.inf else JsVal.neginf
  | JsVal.num a, JsVal.neginf =>
    if a = 0 then JsVal.nan else if 0 < a then JsVal.neginf else JsVal.inf
  | JsVal.inf, JsVal.num a =>
    if a = 0 then JsVal.nan else if 0 < a then JsVal.inf else JsVal.neginf
  | JsVal.neginf, JsVal.num a =>
    if a = 0 then JsVal.nan else if 0 < a then JsVal.neginf else JsVal.inf
  | JsVal.inf, JsVal.inf => JsVal.inf
  | JsVal.inf, JsVal.neginf => JsVal.neginf
  | JsVal.neginf, JsVal.inf => JsVal.neginf
  | JsVal.neginf, JsVal.neginf => JsVal.inf

/-- JavaScript division on possibly special values. -/
def jsDivV : JsVal → JsVal → JsVal
  | JsVal.nan, _ => JsVal.nan
  | JsVal.num _, JsVal.nan => JsVal.nan
  | JsVal.inf, JsVal.nan => JsVal.nan
  | JsVal.neginf, JsVal.nan => JsVal.nan
  | JsVal.num a, JsVal.num b => jsDivQ a b
  | JsVal.num _, JsVal.inf => JsVal.num 0
  | JsVal.num _, JsVal.neginf => JsVal.num 0
  | JsVal.inf, JsVal.num a => if 0 ≤ a then JsVal.inf else JsVal.neginf
  | JsVal.neginf, JsVal.num a => if 0 ≤ a then JsVal.neginf else JsVal.inf
  | JsVal.inf, JsVal.inf => JsVal.nan
  | JsVal.inf, JsVal.neginf => JsVal.nan
  | JsVal.neginf, JsVal.inf => JsVal.nan
  | JsVal.neginf, JsVal.neginf => JsVal.nan

/-- JavaScript truthiness of a number (0 and NaN are falsy). -/
def jsTruthy : JsVal → Bool
  | JsVal.num q => decide (q ≠ 0)
  | JsVal.nan => false
  | JsVal.inf => true
  | JsVal.neginf => true

/-- JavaScript comparison v > 0 (false on NaN). -/
def jsPos : JsVal → Bool
  | JsVal.num q => decide (0 < q)
  | JsVal.nan => false
  | JsVal.inf => true
  | JsVal.neginf => false

/-- Model of the JavaScript expression x || 0 applied to a possibly missing
dictionary entry: a missing key, NaN and 0 all give 0. -/
def jsOrZero : Option JsVal → JsVal
  | none => JsVal.num 0
  | some v => if jsTruthy v then v else JsVal.num 0

/-- Model of Math.sqrt with an abstract kernel for the finite nonnegative
case; sqrt of NaN, of -Infinity and of a negative number is NaN. -/
def jsSqrtV (sqrtQ : ℚ → ℚ) : JsVal → JsVal
  | JsVal.num q => if q < 0 then JsVal.nan else JsVal.num (sqrtQ q)
  | JsVal.nan => JsVal.nan
  | JsVal.inf => JsVal.inf
  | JsVal.neginf => JsVal.nan

/-- Model of Math.pow with an abstract kernel for the finite-base case; the
source only exponentiates with a positive exponent. -/
def jsPowV (powQ : ℚ → ℚ → ℚ) : JsVal → ℚ → JsVal
  | JsVal.num b, e => JsVal.num (powQ b e)
  | JsVal.nan, _ => JsVal.nan
  | JsVal.inf, _ => JsVal.inf
  | JsVal.neginf, _ => JsVal.nan

/-- Model of a JavaScript object used as a dictionary keyed by date: an
association list where a later assignment overwrites an earlier one, as in
the forEach loops that build navByDate and distByDate. -/
def lookupLast {α : Type} (l : List (ℕ × α)) (d : ℕ) : Option α :=
  match l with
  | [] => none
  | p :: rest =>
    match lookupLast rest d with
    | some v => some v
    | none => if p.1 = d then some p.2 else none

/-- Step of jsKeys: a key already present is not added again. -/
def insertKey (acc : List ℕ) (d : ℕ) : List ℕ :=
  if d ∈ acc then acc else acc ++ [d]

/-- Model of the key set of a JavaScript object (or of a Set built by
spreading): keys in first-occurrence order, deduplicated. -/
def jsKeys (ds : List ℕ) : List ℕ := ds.foldl insertKey []

/-- Parsed NAV record as delivered by the fetcher: a nav of none models a
null close price in the Yahoo payload. -/
structure NavRec where
  date : ℕ
  nav : Option ℚ
  deriving DecidableEq

/-- Parsed distribution record: date, distribution per unit, and the NAV at
distribution (the reinvestment price carried by the record itself). -/
structure DistRec where
  date : ℕ
  dist : ℚ
  nav : ℚ
  deriving DecidableEq

/-- Merged (reconciled) point produced by mergeNavAndDistributions: nav of
none models the null produced when neither source prices the date; the
distribution ratio is a JavaScript number since the source divides without
guarding against a zero price. -/
structure MergedPoint where
  date : ℕ
  nav : Option ℚ
  distRatio : JsVal
  deriving DecidableEq

/-- Point built by the allDates.map callback of mergeNavAndDistributions in
portfolio-compare.js: nav falls back along the nullish chain navByDate ??
distNavByDate ?? null (a null stored in navByDate also falls through), and
distRatio is distByDate[date] || 0 applied to the unguarded quotient
dist / nav. -/
def mergePointAt (navData : List NavRec) (distData : List DistRec) (d : ℕ) : MergedPoint :=
  { date := d
    nav := ((lookupLast (navData.map (fun r => (r.date, r.nav))) d).bind (fun x => x)).orElse
      (fun _ => lookupLast (distData.map (fun r => (r.date, r.nav))) d)
    distRatio := jsOrZero (lookupLast (distData.map (fun r => (r.date, jsDivQ r.dist r.nav))) d) }

/-- Embedding of mergeNavAndDistributions from portfolio-compare.js
(lines 286-318): the output ranges over the union of the two key sets in
first-occurrence order (no sort happens inside this function). -/
def mergeNavAndDistributions (navData : List NavRec) (distData : List DistRec) :
    List MergedPoint :=
  (jsKeys (navData.map (fun r => r.date) ++ distData.map (fun r => r.date))).map
    (mergePointAt navData distData)

/-- Ascending sort of merged points by date, as done by every consumer of the
merge in portfolio-compare.js via sort((a, b) => new Date(a.date) - new
Date(b.date)).  Insertion sort is a faithful model because the merged dates
are pairwise distinct, so the ≤-sorted permutation is unique. -/
def sortByDateAsc (l : List MergedPoint) : List MergedPoint :=
  List.insertionSort (fun a b => a.date ≤ b.date) l

/-- Embedding of mergeNavAndDistributions from index.html (lines 245-282).
This variant computes the ratio without the || 0 coercion (dist ? dist.ratio
: 0 keeps NaN and Infinity), coerces a zero or null nav to null via
navByDate[date] || null, forces the constant 1.00 for the fixed-NAV
instrument (the ticker === AFAXX test is modeled by the isFixedNav flag), and
sorts the dates ascending and then reverses (sort().reverse(), newest
first). -/
def mergePointAtHtml (navData : List NavRec) (distData : List DistRec)
    (isFixedNav : Bool) (d : ℕ) : MergedPoint :=
  let navValue : Option ℚ :=
    match (lookupLast (navData.map (fun r => (r.date, r.nav))) d).bind (fun x => x) with
    | some q => if q = 0 then none else some q
    | none => none
  { date := d
    nav := if isFixedNav then some 1 else navValue
    distRatio := match lookupLast (distData.map (fun r => (r.date, jsDivQ r.dist r.nav))) d with
      | some r => r
      | none => JsVal.num 0 }

/-- Embedding of the date axis and map of the index.html merge: dates sorted
ascending then reversed (sort().reverse(), newest first). -/
def mergeNavAndDistributionsHtml (navData : List NavRec) (distData : List DistRec)
    (isFixedNav : Bool) : List MergedPoint :=
  ((List.insertionSort (fun a b : ℕ => a ≤ b)
    (jsKeys (navData.map (fun r => r.date) ++ distData.map (fun r => r.date)))).reverse).map
    (mergePointAtHtml navData distData isFixedNav)

/-- Prepared time-series item consumed by the second pipeline of
portfolio-compare.js (calculatePortfolioComparison): a merged record whose
incomplete entries were filtered out by the page, so nav is a plain number
and the ratio is finite. -/
structure TSPoint where
  date : ℕ
  nav : ℚ
  distRatio : ℚ
  deriving DecidableEq

/-- Embedding of getAllDates (portfolio-compare.js lines 524-539): union of
the date sets of several series in first-occurrence order, sorted
ascending. -/
def getAllDates (series : List (List ℕ)) : List ℕ :=
  List.insertionSort (fun a b : ℕ => a ≤ b) (jsKeys series.flatten)

/-- Daily value row pushed by calculateMMFPortfolio. -/
structure MMFDaily where
  date : ℕ
  units : ℚ
  nav : ℚ
  value : ℚ
  changeFromStart : ℚ
  deriving DecidableEq

/-- Portfolio record returned by calculateMMFPortfolio. -/
structure MMFPortfolio where
  initialUnits : ℚ
  initialDate : ℕ
  currentUnits : ℚ
  dailyValues : List MMFDaily
  deriving DecidableEq

/-- Unit update of one day of the reinvestment loop: if there was a
distribution, additional units equal to units * distRatio are credited. -/
def mmfStepUnits (units : ℚ) (item : TSPoint) : ℚ :=
  if 0 < item.distRatio then units + units * item.distRatio else units

/-- Body of the forEach loop of calculateMMFPortfolio: units are updated
first (reinvestment), then the value of the day is units * nav. -/
def mmfDailyGo (initialValue : ℚ) : ℚ → List TSPoint → List MMFDaily
  | _, [] => []
  | units, item :: rest =>
    let u := mmfStepUnits units item
    let dailyValue := u * item.nav
    { date := item.date, units := u, nav := item.nav, value := dailyValue,
      changeFromStart := (dailyValue - initialValue) / initialValue * 100 } ::
      mmfDailyGo initialValue u rest

/-- Embedding of calculateMMFPortfolio (portfolio-compare.js lines 548-598):
filter to dates at or after the start date; if nothing remains, return the
portfolio record unchanged (empty dailyValues, no error); otherwise walk the
window compounding units on distribution days. -/
def calculateMMFPortfolio (mmfData : List TSPoint) (initialUnits : ℚ) (startDate : ℕ) :
    MMFPortfolio :=
  let filteredData := mmfData.filter (fun item => startDate ≤ item.date)
  match filteredData with
  | [] =>
    { initialUnits := initialUnits, initialDate := startDate,
      currentUnits := initialUnits, dailyValues := [] }
  | first :: rest =>
    let initialValue := initialUnits * first.nav
    { initialUnits := initialUnits, initialDate := startDate,
      currentUnits := (first :: rest).foldl mmfStepUnits initialUnits,
      dailyValues := mmfDailyGo initialValue initialUnits (first :: rest) }

/-- Daily value row pushed by calculateMutualFundsPortfolio. -/
structure MFDaily where
  date : ℕ
  agthxUnits : ℚ
  ancfxUnits : ℚ
  agthxNav : ℚ
  ancfxNav : ℚ
  agthxValue : ℚ
  ancfxValue : ℚ
  value : ℚ
  changeFromStart : ℚ
  deriving DecidableEq

/-- Portfolio record returned by calculateMutualFundsPortfolio. -/
structure MFPortfolio where
  initialDate : ℕ
  initialAGTHXUnits : ℚ
  initialANCFXUnits : ℚ
  currentAGTHXUnits : ℚ
  currentANCFXUnits : ℚ
  dailyValues : List MFDaily
  deriving DecidableEq

/-- Per-fund state update of one day of the combined loop: when the fund has
an observation on the date, its last NAV is replaced and a distribution is
reinvested; otherwise units and last NAV are carried forward. -/
def mfStep (byDate : ℕ → Option TSPoint) (units lastNav : ℚ) (d : ℕ) : ℚ × ℚ :=
  match byDate d with
  | some item =>
    (if 0 < item.distRatio then units + units * item.distRatio else units, item.nav)
  | none => (units, lastNav)

/-- Body of the allDates.forEach loop of calculateMutualFundsPortfolio. -/
def mfDailyGo (agthxByDate ancfxByDate : ℕ → Option TSPoint) (initialValue : ℚ) :
    ℚ → ℚ → ℚ → ℚ → List ℕ → List MFDaily
  | _, _, _, _, [] => []
  | aU, nU, aNav, nNav, d :: ds =>
    let a := mfStep agthxByDate aU aNav d
    let n := mfStep ancfxByDate nU nNav d
    let agthxValue := a.1 * a.2
    let ancfxValue := n.1 * n.2
    let totalValue := agthxValue + ancfxValue
    { date := d, agthxUnits := a.1, ancfxUnits := n.1, agthxNav := a.2, ancfxNav := n.2,
      agthxValue := agthxValue, ancfxValue := ancfxValue, value := totalValue,
      changeFromStart := (totalValue - initialValue) / initialValue * 100 } ::
      mfDailyGo agthxByDate ancfxByDate initialValue a.1 n.1 a.2 n.2 ds

/-- Final unit count of one fund after the combined loop. -/
def mfUnitsAfter (byDate : ℕ → Option TSPoint) (u0 : ℚ) (ds : List ℕ) : ℚ :=
  ds.foldl (fun u d =>
    match byDate d with
    | some item => if 0 < item.distRatio then u + u * item.distRatio else u
    | none => u) u0

/-- Initial NAV scan of calculateMutualFundsPortfolio: the loop keeps
overwriting while the stored nav is falsy (0), so the result is the first
nonzero nav of the fund along allDates, else 0. -/
def firstTruthyNav (byDate : ℕ → Option TSPoint) (allDates : List ℕ) : ℚ :=
  ((allDates.filterMap (fun d => (byDate d).map (fun item => item.nav))).find?
    (fun q => q ≠ 0)).getD 0

/-- Embedding of calculateMutualFundsPortfolio (portfolio-compare.js lines
609-725): filter both funds by the start date; if either window is empty the
portfolio record is returned as is (empty dailyValues, no error); otherwise
iterate over the union of the filtered dates, carrying each fund by its last
seen NAV. -/
def calculateMutualFundsPortfolio (agthxData ancfxData : List TSPoint)
    (agthxUnits ancfxUnits : ℚ) (startDate : ℕ) : MFPortfolio :=
  let filteredAGTHX := agthxData.filter (fun item => startDate ≤ item.date)
  let filteredANCFX := ancfxData.filter (fun item => startDate ≤ item.date)
  if filteredAGTHX.length = 0 ∨ filteredANCFX.length = 0 then
    { initialDate := startDate, initialAGTHXUnits := agthxUnits,
      initialANCFXUnits := ancfxUnits, currentAGTHXUnits := agthxUnits,
      currentANCFXUnits := ancfxUnits, dailyValues := [] }
  else
    let agthxByDate := fun d => lookupLast (filteredAGTHX.map (fun i => (i.date, i))) d
    let ancfxByDate := fun d => lookupLast (filteredANCFX.map (fun i => (i.date, i))) d
    let allDates := getAllDates [filteredAGTHX.map (fun i => i.date),
      filteredANCFX.map (fun i => i.date)]
    let initialAgthxNav := firstTruthyNav agthxByDate allDates
    let initialAncfxNav := firstTruthyNav ancfxByDate allDates
    let initialValue := agthxUnits * initialAgthxNav + ancfxUnits * initialAncfxNav
    { initialDate := startDate, initialAGTHXUnits := agthxUnits,
      initialANCFXUnits := ancfxUnits,
      currentAGTHXUnits := mfUnitsAfter agthxByDate agthxUnits allDates,
      currentANCFXUnits := mfUnitsAfter ancfxByDate ancfxUnits allDates,
      dailyValues := mfDailyGo agthxByDate ancfxByDate initialValue
        agthxUnits ancfxUnits initialAgthxNav initialAncfxNav allDates }

/-- Daily value row of a single simulated instrument, as consumed by the
aggregator (only the date and the value matter to it). -/
structure DailyVal where
  date : ℕ
  value : ℚ
  deriving DecidableEq

/-- Combined daily row pushed by combineMutualFundPortfolio. -/
structure CombinedDaily where
  date : ℕ
  value : ℚ
  agthxValue : ℚ
  ancfxValue : ℚ
  deriving DecidableEq

/-- Body of the allDates.forEach loop of combineMutualFundPortfolio: the last
known value of a fund is replaced when the fund reports on the date and
carried forward otherwise; the combined value is always the sum of the two
last known values. -/
def combineGo (agthxByDate ancfxByDate : ℕ → Option ℚ) :
    ℚ → ℚ → List ℕ → List CombinedDaily
  | _, _, [] => []
  | lastA, lastN, d :: ds =>
    let a := (agthxByDate d).getD lastA
    let n := (ancfxByDate d).getD lastN
    { date := d, value := a + n, agthxValue := a, ancfxValue := n } ::
      combineGo agthxByDate ancfxByDate a n ds

/-- Embedding of combineMutualFundPortfolio (portfolio-compare.js lines
220-257): date-keyed maps of the two component series, union of the dates
sorted ascending, then a forward-filling walk with both last known values
set to 0. -/
def combineMutualFundPortfolio (agthxValues ancfxValues : List DailyVal) :
    List CombinedDaily :=
  let agthxByDate := fun d => lookupLast (agthxValues.map (fun p => (p.date, p.value))) d
  let ancfxByDate := fun d => lookupLast (ancfxValues.map (fun p => (p.date, p.value))) d
  let allDates := List.insertionSort (fun a b : ℕ => a ≤ b)
    (jsKeys (agthxValues.map (fun p => p.date) ++ ancfxValues.map (fun p => p.date)))
  combineGo agthxByDate ancfxByDate 0 0 allDates

/-- Daily row pushed by calculateMutualFundComponent: shares and value are
JavaScript numbers because the loop multiplies by a possibly null nav
(ToNumber(null) = 0) and by an unguarded distribution ratio. -/
structure ComponentDaily where
  date : ℕ
  nav : Option ℚ
  shares : JsVal
  value : JsVal
  distRatio : JsVal
  deriving DecidableEq

/-- Conversion applied by JavaScript arithmetic to the nav field of a merged
point: a null nav becomes 0 under multiplication. -/
def navToJs : Option ℚ → JsVal
  | some q => JsVal.num q
  | none => JsVal.num 0

/-- Body of the forEach loop of calculateMutualFundComponent: reinvest when
distRatio > 0, then value the day as shares * nav, where a null nav makes
the product 0 (not an error). -/
def componentGo : JsVal → List MergedPoint → List ComponentDaily
  | _, [] => []
  | shares, dayData :: rest =>
    let s := if jsPos dayData.distRatio
      then jsAddV shares (jsMulV shares dayData.distRatio) else shares
    let currentValue := jsMulV s (navToJs dayData.nav)
    { date := dayData.date, nav := dayData.nav, shares := s, value := currentValue,
      distRatio := dayData.distRatio } :: componentGo s rest

/-- Embedding of the daily-value computation of calculateMutualFundComponent
(portfolio-compare.js lines 163-196): merge, sort ascending, then walk the
series; the trailing per-fund summary block of the source is not needed by
any claim and is omitted. -/
def calculateMutualFundComponent (navData : List NavRec) (distData : List DistRec)
    (initialShares : ℚ) : List ComponentDaily :=
  componentGo (JsVal.num initialShares)
    (sortByDateAsc (mergeNavAndDistributions navData distData))

/-- Comparison row pushed by alignPortfolioSeries. -/
structure ComparisonPoint where
  date : ℕ
  p1Value : ℚ
  p2Value : ℚ
  p1Index : ℚ
  p2Index : ℚ
  difference : ℚ
  deriving DecidableEq

/-- Embedding of alignPortfolioSeries (portfolio-compare.js lines 734-791):
find the first date of allDates on which both portfolios have a value, then
emit one indexed comparison point for every date at or after it on which
both portfolios have a value (dates where only one reports are skipped, not
forward-filled). -/
def alignPortfolioSeries (p1Daily p2Daily : List DailyVal) (allDates : List ℕ) :
    List ComparisonPoint :=
  let p1ByDate := fun d => lookupLast (p1Daily.map (fun x => (x.date, x.value))) d
  let p2ByDate := fun d => lookupLast (p2Daily.map (fun x => (x.date, x.value))) d
  match allDates.find? (fun d => (p1ByDate d).isSome && (p2ByDate d).isSome) with
  | none => []
  | some startDate =>
    let p1StartValue := (p1ByDate startDate).getD 0
    let p2StartValue := (p2ByDate startDate).getD 0
    allDates.filterMap (fun d =>
      if startDate ≤ d then
        match p1ByDate d, p2ByDate d with
        | some v1, some v2 =>
          some { date := d, p1Value := v1, p2Value := v2,
                 p1Index := v1 / p1StartValue * 100,
                 p2Index := v2 / p2StartValue * 100,
                 difference := v2 / p2StartValue * 100 - v1 / p1StartValue * 100 }
        | _, _ => none
      else none)

/-- Summary record returned by summarizePortfolio for a nonempty series (the
name and echoed holdings fields carry no numeric content and are omitted).
Fields that JavaScript can degrade to NaN or Infinity are JsVal. -/
structure Summary where
  initialValue : ℚ
  currentValue : ℚ
  change : ℚ
  changePercent : JsVal
  annualizedReturn : JsVal
  minValue : ℚ
  minDate : ℕ
  maxValue : ℚ
  maxDate : ℕ
  volatility : JsVal
  deriving DecidableEq

/-- Milliseconds in a year, the divisor of the yearFraction computation. -/
def yearMs : ℚ := 365 * 24 * 60 * 60 * 1000

/-- Accumulation loop over consecutive daily returns: (sumReturns,
sumSquaredReturns, countReturns). -/
def returnsAccum (values : List ℚ) : JsVal × JsVal × ℕ :=
  (values.zip values.tail).foldl (fun acc pv =>
    let dailyReturn := jsDivQ (pv.2 - pv.1) pv.1
    (jsAddV acc.1 dailyReturn, jsAddV acc.2.1 (jsMulV dailyReturn dailyReturn),
      acc.2.2 + 1))
    (JsVal.num 0, JsVal.num 0, 0)

/-- Scan for the minimum value and its date; the Infinity initialization of
the source makes the first element win the first comparison, ties keep the
first occurrence. -/
def minScan (values : List DailyVal) : Option (ℚ × ℕ) :=
  values.foldl (fun acc day =>
    match acc with
    | none => some (day.value, day.date)
    | some (mv, md) => if day.value < mv then some (day.value, day.date) else some (mv, md))
    none

/-- Scan for the maximum value and its date, ties keep the first
occurrence. -/
def maxScan (values : List DailyVal) : Option (ℚ × ℕ) :=
  values.foldl (fun acc day =>
    match acc with
    | none => some (day.value, day.date)
    | some (mv, md) => if mv < day.value then some (day.value, day.date) else some (mv, md))
    none

/-- Embedding of summarizePortfolio (portfolio-compare.js lines 799-878).
The empty-series early return of the source (a reduced record) is modeled as
none.  Math.pow and Math.sqrt are abstract kernels powQ and sqrtQ; every
statement proved below holds for all instantiations.  The source computes
volatility = sqrt(variance) * sqrt(252) * 100 where variance is the
population variance of the daily returns; with no returns the 0/0 average
makes the variance and hence the volatility NaN. -/
def summarizePortfolio (sqrtQ : ℚ → ℚ) (powQ : ℚ → ℚ → ℚ)
    (dailyValues : List DailyVal) : Option Summary :=
  match dailyValues with
  | [] => none
  | firstDay :: rest =>
    let lastDay := (firstDay :: rest).getLast (List.cons_ne_nil firstDay rest)
    let initialValue := firstDay.value
    let currentValue := lastDay.value
    let change := currentValue - initialValue
    let yearFraction : ℚ := ((lastDay.date : ℚ) - (firstDay.date : ℚ)) / yearMs
    let annualizedReturn := if 1 / 50 < yearFraction then
        jsMulV (jsSubV (jsPowV powQ (jsDivQ currentValue initialValue) (1 / yearFraction))
          (JsVal.num 1)) (JsVal.num 100)
      else JsVal.num 0
    let mn := (minScan (firstDay :: rest)).getD (firstDay.value, firstDay.date)
    let mx := (maxScan (firstDay :: rest)).getD (firstDay.value, firstDay.date)
    let acc := returnsAccum ((firstDay :: rest).map (fun p => p.value))
    let avgReturn := jsDivV acc.1 (JsVal.num acc.2.2)
    let variance := jsSubV (jsDivV acc.2.1 (JsVal.num acc.2.2)) (jsMulV avgReturn avgReturn)
    let volatility := jsMulV (jsMulV (jsSqrtV sqrtQ variance)
      (jsSqrtV sqrtQ (JsVal.num 252))) (JsVal.num 100)
    some { initialValue := initialValue, currentValue := currentValue, change := change,
           changePercent := jsMulV (jsDivQ change initialValue) (JsVal.num 100),
           annualizedReturn := annualizedReturn,
           minValue := mn.1, minDate := mn.2, maxValue := mx.1, maxDate := mx.2,
           volatility := volatility }

theorem lookupLast_eq_none {α : Type} {l : List (ℕ × α)} {d : ℕ} :
    lookupLast l d = none ↔ ∀ p ∈ l, p.1 ≠ d := by
  induction l with
  | nil => simp [lookupLast]
  | cons p rest ih =>
    constructor
    · intro h
      have hrest : lookupLast rest d = none := by
        cases hx : lookupLast rest d with
        | none => rfl
        | some w => simp [lookupLast, hx] at h
      have hp : p.1 ≠ d := by
        intro hd
        simp [lookupLast, hrest, hd] at h
      intro q hq
      rcases List.mem_cons.mp hq with rfl | hq2
      · exact hp
      · exact (ih.mp hrest) q hq2
    · intro h
      have hrest : lookupLast rest d = none :=
        ih.mpr (fun q hq => h q (List.mem_cons_of_mem _ hq))
      simp [lookupLast, hrest, h p (List.mem_cons_self p rest)]

theorem lookupLast_mem {α : Type} {l : List (ℕ × α)} {d : ℕ} {v : α}
    (h : lookupLast l d = some v) : (d, v) ∈ l := by
  induction l with
  | nil => simp [lookupLast] at h
  | cons p rest ih =>
    cases hx : lookupLast rest d with
    | some w =>
      simp only [lookupLast, hx] at h
      cases h
      exact List.mem_cons_of_mem _ (ih hx)
    | none =>
      simp only [lookupLast, hx] at h
      by_cases hd : p.1 = d
      · simp only [hd, if_pos rfl] at h
        have hv : p.2 = v := by injection h
        have hpd : p = (d, v) := by
          obtain ⟨p1, p2⟩ := p
          simp only at hd hv
          rw [hd, hv]
        rw [← hpd]
        exact List.mem_cons_self p rest
      · simp [hd] at h

theorem lookupLast_eq_some_of_nodup {α : Type} {l : List (ℕ × α)}
    (hnd : (l.map Prod.fst).Nodup) {d : ℕ} {v : α} (hm : (d, v) ∈ l) :
    lookupLast l d = some v := by
  induction l with
  | nil => simp at hm
  | cons p rest ih =>
    simp only [List.map_cons, List.nodup_cons] at hnd
    rcases List.mem_cons.mp hm with rfl | hm2
    · have hrest : lookupLast rest d = none := by
        rw [lookupLast_eq_none]
        intro q hq hqd
        have hq2 : q.1 ∈ rest.map Prod.fst := List.mem_map_of_mem Prod.fst hq
        rw [hqd] at hq2
        exact hnd.1 hq2
      simp [lookupLast, hrest]
    · simp [lookupLast, ih hnd.2 hm2]

theorem lookupLast_isSome_iff {α : Type} {l : List (ℕ × α)} {d : ℕ} :
    (lookupLast l d).isSome ↔ ∃ p ∈ l, p.1 = d := by
  constructor
  · intro h
    obtain ⟨v, hv⟩ := Option.isSome_iff_exists.mp h
    exact ⟨(d, v), lookupLast_mem hv, rfl⟩
  · intro ⟨p, hp, hpd⟩
    cases hx : lookupLast l d with
    | some w => simp
    | none => exact absurd hpd (lookupLast_eq_none.mp hx p hp)

theorem lookupLast_perm {α : Type} {l l2 : List (ℕ × α)} (hp : l.Perm l2)
    (hnd : (l.map Prod.fst).Nodup) (d : ℕ) : lookupLast l d = lookupLast l2 d := by
  have hnd2 : (l2.map Prod.fst).Nodup := ((hp.map Prod.fst).nodup_iff).mp hnd
  cases hx : lookupLast l d with
  | some v =>
    exact (lookupLast_eq_some_of_nodup hnd2 (hp.mem_iff.mp (lookupLast_mem hx))).symm
  | none =>
    have : lookupLast l2 d = none := by
      rw [lookupLast_eq_none]
      intro q hq
      exact lookupLast_eq_none.mp hx q (hp.mem_iff.mpr hq)
    exact this.symm

theorem mem_insertKey {acc : List ℕ} {d x : ℕ} :
    x ∈ insertKey acc d ↔ x ∈ acc ∨ x = d := by
  by_cases h : d ∈ acc
  · simp only [insertKey, if_pos h]
    constructor
    · exact Or.inl
    · rintro (hx | rfl)
      · exact hx
      · exact h
  · simp [insertKey, if_neg h]

theorem nodup_insertKey {acc : List ℕ} {d : ℕ} (h : acc.Nodup) :
    (insertKey acc d).Nodup := by
  by_cases hd : d ∈ acc
  · simpa [insertKey, if_pos hd] using h
  · simp only [insertKey, if_neg hd]
    refine List.Nodup.append h (List.nodup_singleton d) ?_
    intro x hx hxd
    rw [List.mem_singleton] at hxd
    exact hd (hxd ▸ hx)

theorem mem_foldl_insertKey (l : List ℕ) :
    ∀ (acc : List ℕ) (x : ℕ), x ∈ l.foldl insertKey acc ↔ x ∈ acc ∨ x ∈ l := by
  induction l with
  | nil => simp
  | cons a rest ih =>
    intro acc x
    simp only [List.foldl_cons, ih (insertKey acc a) x, mem_insertKey, List.mem_cons]
    tauto

theorem nodup_foldl_insertKey (l : List ℕ) :
    ∀ acc : List ℕ, acc.Nodup → (l.foldl insertKey acc).Nodup := by
  induction l with
  | nil => intro acc h; simpa using h
  | cons a rest ih =>
    intro acc h
    exact ih (insertKey acc a) (nodup_insertKey h)

theorem mem_jsKeys {l : List ℕ} {x : ℕ} : x ∈ jsKeys l ↔ x ∈ l := by
  simp [jsKeys, mem_foldl_insertKey]

theorem jsKeys_nodup (l : List ℕ) : (jsKeys l).Nodup :=
  nodup_foldl_insertKey l [] List.nodup_nil

theorem jsKeys_perm {l l2 : List ℕ} (h : ∀ x, x ∈ l ↔ x ∈ l2) :
    (jsKeys l).Perm (jsKeys l2) := by
  rw [List.perm_ext_iff_of_nodup (jsKeys_nodup l) (jsKeys_nodup l2)]
  intro a
  rw [mem_jsKeys, mem_jsKeys]
  exact h a

theorem pairwise_lt_of_pairwise_le_nodup {β : Type} (key : β → ℕ) {l : List β}
    (hs : l.Pairwise (fun a b => key a ≤ key b)) (hnd : (l.map key).Nodup) :
    l.Pairwise (fun a b => key a < key b) := by
  have hne : l.Pairwise (fun a b => key a ≠ key b) := List.pairwise_map.mp hnd
  exact (hs.and hne).imp (fun h => lt_of_le_of_ne h.1 h.2)

theorem eq_of_perm_of_sortedKey {β : Type} (key : β → ℕ) {l1 l2 : List β}
    (hp : l1.Perm l2) (h1 : l1.Pairwise (fun a b => key a < key b))
    (h2 : l2.Pairwise (fun a b => key a < key b)) : l1 = l2 := by
  haveI : IsAntisymm β (fun a b => key a < key b) :=
    ⟨fun a b hab hba => absurd (hab.trans hba) (lt_irrefl _)⟩
  exact List.eq_of_perm_of_sorted hp h1 h2

instance : IsTotal MergedPoint (fun a b => a.date ≤ b.date) :=
  ⟨fun a b => Nat.le_total a.date b.date⟩

instance : IsTrans MergedPoint (fun a b => a.date ≤ b.date) :=
  ⟨fun _ _ _ h1 h2 => Nat.le_trans h1 h2⟩

theorem mergePointAt_date (navData : List NavRec) (distData : List DistRec) (d : ℕ) :
    (mergePointAt navData distData d).date = d := rfl

theorem merge_dates (navData : List NavRec) (distData : List DistRec) :
    (mergeNavAndDistributions navData distData).map (fun p => p.date) =
      jsKeys (navData.map (fun r => r.date) ++ distData.map (fun r => r.date)) := by
  unfold mergeNavAndDistributions
  rw [List.map_map]
  exact List.map_id _

theorem merge_dates_nodup (navData : List NavRec) (distData : List DistRec) :
    ((mergeNavAndDistributions navData distData).map (fun p => p.date)).Nodup := by
  rw [merge_dates]
  exact jsKeys_nodup _

theorem sortByDateAsc_pairwise_lt (l : List MergedPoint)
    (h : (l.map (fun p => p.date)).Nodup) :
    (sortByDateAsc l).Pairwise (fun p q => p.date < q.date) := by
  have hs : (sortByDateAsc l).Pairwise (fun p q => p.date ≤ q.date) :=
    List.sorted_insertionSort (fun a b : MergedPoint => a.date ≤ b.date) l
  have hperm : (sortByDateAsc l).Perm l :=
    List.perm_insertionSort (fun a b : MergedPoint => a.date ≤ b.date) l
  have hnd : ((sortByDateAsc l).map (fun p => p.date)).Nodup := by
    have hx := List.Perm.map (fun p : MergedPoint => p.date) hperm
    exact hx.nodup_iff.mpr h
  exact pairwise_lt_of_pairwise_le_nodup (fun p : MergedPoint => p.date) hs hnd

theorem mergePointAt_perm_eq {navData navData2 : List NavRec} {distData distData2 : List DistRec}
    (hnav : (navData.map (fun r => r.date)).Nodup)
    (hdist : (distData.map (fun r => r.date)).Nodup)
    (hp1 : navData.Perm navData2) (hp2 : distData.Perm distData2) :
    mergePointAt navData distData = mergePointAt navData2 distData2 := by
  have knav : ((navData.map (fun r => (r.date, r.nav))).map Prod.fst).Nodup := by
    rw [List.map_map]
    exact hnav
  have kdist : ((distData.map (fun r => (r.date, r.nav))).map Prod.fst).Nodup := by
    rw [List.map_map]
    exact hdist
  have kdist2 : ((distData.map (fun r => (r.date, jsDivQ r.dist r.nav))).map Prod.fst).Nodup := by
    rw [List.map_map]
    exact hdist
  funext d
  unfold mergePointAt
  rw [lookupLast_perm (hp1.map _) knav d, lookupLast_perm (hp2.map _) kdist d,
    lookupLast_perm (hp2.map _) kdist2 d]

theorem merge_perm {navData navData2 : List NavRec} {distData distData2 : List DistRec}
    (hnav : (navData.map (fun r => r.date)).Nodup)
    (hdist : (distData.map (fun r => r.date)).Nodup)
    (hp1 : navData.Perm navData2) (hp2 : distData.Perm distData2) :
    (mergeNavAndDistributions navData distData).Perm
      (mergeNavAndDistributions navData2 distData2) := by
  unfold mergeNavAndDistributions
  rw [← mergePointAt_perm_eq hnav hdist hp1 hp2]
  refine List.Perm.map _ (jsKeys_perm ?_)
  intro x
  rw [List.mem_append, List.mem_append, (hp1.map (fun r => r.date)).mem_iff,
    (hp2.map (fun r => r.date)).mem_iff]

theorem mergePointAtHtml_date (navData : List NavRec) (distData : List DistRec)
    (isFixedNav : Bool) (d : ℕ) : (mergePointAtHtml navData distData isFixedNav d).date = d := rfl

theorem html_pairwise_desc (navData : List NavRec) (distData : List DistRec)
    (isFixedNav : Bool) :
    (mergeNavAndDistributionsHtml navData distData isFixedNav).Pairwise
      (fun p q => q.date < p.date) := by
  unfold mergeNavAndDistributionsHtml
  rw [List.pairwise_map]
  simp only [mergePointAtHtml_date]
  rw [List.pairwise_reverse]
  have hnd : (List.insertionSort (fun a b : ℕ => a ≤ b)
      (jsKeys (navData.map (fun r => r.date) ++ distData.map (fun r => r.date)))).Nodup :=
    ((List.perm_insertionSort (fun a b : ℕ => a ≤ b) _).nodup_iff).mpr (jsKeys_nodup _)
  have hs : (List.insertionSort (fun a b : ℕ => a ≤ b)
      (jsKeys (navData.map (fun r => r.date) ++ distData.map (fun r => r.date)))).Pairwise
      (fun a b : ℕ => a ≤ b) :=
    List.sorted_insertionSort (fun a b : ℕ => a ≤ b) _
  exact List.Sorted.lt_of_le hs hnd

/-- C3 counterexample: the raw Reconciler output of portfolio-compare.js is
not sorted ascending by date; with the priced series given newest first the
merged dates come out as [2, 1]. -/
theorem merge_not_ascending_cex :
    ¬ (mergeNavAndDistributions [{ date := 2, nav := some 10 }, { date := 1, nav := some 11 }]
      []).Pairwise (fun p q => p.date < q.date) := by decide

/-- C3 (amended): the raw merge output lists dates in first-occurrence input
order (portfolio-compare.js) and the index.html variant is sorted strictly
descending; every consumer in portfolio-compare.js sorts the merged series
ascending by date before computing, and that sorted series is strictly
ascending and does not depend on the order of the entries within either
input. -/
theorem sortedMerge_ascending_input_order_free (navData navData2 : List NavRec)
    (distData distData2 : List DistRec) (isFixedNav : Bool)
    (hnav : (navData.map (fun r => r.date)).Nodup)
    (hdist : (distData.map (fun r => r.date)).Nodup)
    (hp1 : navData.Perm navData2) (hp2 : distData.Perm distData2) :
    (sortByDateAsc (mergeNavAndDistributions navData distData)).Pairwise
      (fun p q => p.date < q.date) ∧
    sortByDateAsc (mergeNavAndDistributions navData distData) =
      sortByDateAsc (mergeNavAndDistributions navData2 distData2) ∧
    (mergeNavAndDistributionsHtml navData distData isFixedNav).Pairwise
      (fun p q => q.date < p.date) := by
  have h1 := sortByDateAsc_pairwise_lt _ (merge_dates_nodup navData distData)
  have h2 := sortByDateAsc_pairwise_lt _ (merge_dates_nodup navData2 distData2)
  refine ⟨h1, ?_, html_pairwise_desc navData distData isFixedNav⟩
  have hperm : (sortByDateAsc (mergeNavAndDistributions navData distData)).Perm
      (sortByDateAsc (mergeNavAndDistributions navData2 distData2)) :=
    ((List.perm_insertionSort (fun a b : MergedPoint => a.date ≤ b.date) _).trans
      (merge_perm hnav hdist hp1 hp2)).trans
      (List.perm_insertionSort (fun a b : MergedPoint => a.date ≤ b.date) _).symm
  exact eq_of_perm_of_sortedKey (fun p : MergedPoint => p.date) hperm h1 h2

theorem sortedMerge_ascending_input_order_free_witness :
    sortByDateAsc (mergeNavAndDistributions
      [{ date := 2, nav := some 10 }, { date := 1, nav := some 11 }]
      [{ date := 3, dist := 1, nav := 2 }]) =
    sortByDateAsc (mergeNavAndDistributions
      [{ date := 1, nav := some 11 }, { date := 2, nav := some 10 }]
      [{ date := 3, dist := 1, nav := 2 }]) :=
  (sortedMerge_ascending_input_order_free
    [{ date := 2, nav := some 10 }, { date := 1, nav := some 11 }]
    [{ date := 1, nav := some 11 }, { date := 2, nav := some 10 }]
    [{ date := 3, dist := 1, nav := 2 }] [{ date := 3, dist := 1, nav := 2 }] false
    (by decide) (by decide) (by decide) (by decide)).2.1

/-- C4: the Reconciler output date set is exactly the union of the two input
date sets; on a date carrying a distribution record but no NAV observation
the output nav is the price field of the distribution record itself; and the
fixed-NAV variant forces the constant 1.00 on every output date. -/
theorem merge_union_nav_fallback (navData : List NavRec) (distData : List DistRec)
    (hdist : (distData.map (fun r => r.date)).Nodup) :
    (∀ d : ℕ, (∃ p ∈ mergeNavAndDistributions navData distData, p.date = d) ↔
      (d ∈ navData.map (fun r => r.date) ∨ d ∈ distData.map (fun r => r.date))) ∧
    (∀ r ∈ distData, r.date ∉ navData.map (fun r2 => r2.date) →
      ∀ p ∈ mergeNavAndDistributions navData distData, p.date = r.date →
        p.nav = some r.nav) ∧
    (∀ (navh : List NavRec) (disth : List DistRec) (p : MergedPoint),
      p ∈ mergeNavAndDistributionsHtml navh disth true → p.nav = some 1) := by
  refine ⟨?_, ?_, ?_⟩
  · intro d
    constructor
    · rintro ⟨p, hp, rfl⟩
      have hmem : p.date ∈ (mergeNavAndDistributions navData distData).map
          (fun p => p.date) := List.mem_map_of_mem _ hp
      rw [merge_dates, mem_jsKeys, List.mem_append] at hmem
      exact hmem
    · intro hd
      have hmem : d ∈ jsKeys (navData.map (fun r => r.date) ++
          distData.map (fun r => r.date)) :=
        mem_jsKeys.mpr (List.mem_append.mpr hd)
      exact ⟨mergePointAt navData distData d, List.mem_map_of_mem _ hmem, rfl⟩
  · intro r hr hnotin p hp hpd
    obtain ⟨d, hd, rfl⟩ := List.mem_map.mp hp
    have hdr : d = r.date := hpd
    subst hdr
    have hnone : lookupLast (navData.map (fun r2 => (r2.date, r2.nav))) r.date = none := by
      rw [lookupLast_eq_none]
      intro q hq hqd
      obtain ⟨x, hx, rfl⟩ := List.mem_map.mp hq
      exact hnotin (hqd ▸ List.mem_map_of_mem (fun r2 => r2.date) hx)
    have kdist : ((distData.map (fun r2 => (r2.date, r2.nav))).map Prod.fst).Nodup := by
      rw [List.map_map]
      exact hdist
    have hsome : lookupLast (distData.map (fun r2 => (r2.date, r2.nav))) r.date =
        some r.nav := by
      have hpair : ((r.date, r.nav) : ℕ × ℚ) ∈
          distData.map (fun r2 => (r2.date, r2.nav)) :=
        List.mem_map_of_mem _ hr
      exact lookupLast_eq_some_of_nodup kdist hpair
    show (mergePointAt navData distData r.date).nav = some r.nav
    simp [mergePointAt, hnone, hsome, Option.orElse]
  · intro navh disth p hp
    obtain ⟨d, hd, rfl⟩ := List.mem_map.mp hp
    rfl

theorem merge_union_nav_fallback_witness :
    ({ date := 7, nav := some 3, distRatio := JsVal.num 2 } : MergedPoint).nav =
      some (3 : ℚ) :=
  (merge_union_nav_fallback [] [{ date := 7, dist := 6, nav := 3 }] (by decide)).2.1
    { date := 7, dist := 6, nav := 3 } (by decide) (by decide)
    { date := 7, nav := some 3, distRatio := JsVal.num 2 }
    (by
      have hms : mergeNavAndDistributions [] [{ date := 7, dist := 6, nav := 3 }] =
          [{ date := 7, nav := some 3, distRatio := JsVal.num 2 }] := by
        norm_num [mergeNavAndDistributions, mergePointAt, jsKeys, insertKey, lookupLast,
          jsOrZero, jsTruthy, jsDivQ, Option.orElse]
      rw [hms]
      exact List.mem_singleton.mpr rfl)
    (by decide)

/-- C5: the source computes the distribution ratio with an unguarded
division; a record with price 0 and distribution 0 yields NaN which the
|| 0 coercion silently turns into ratio 0, and a record with price 0 and a
positive distribution yields ratio Infinity; no error condition is surfaced
anywhere (the merge has no error channel at all). -/
theorem merge_zero_price_ratio_coerced :
    (mergeNavAndDistributions [] [{ date := 1, dist := 0, nav := 0 }]).map
      (fun p => p.distRatio) = [JsVal.num 0] ∧
    (mergeNavAndDistributions [] [{ date := 1, dist := 5, nav := 0 }]).map
      (fun p => p.distRatio) = [JsVal.inf] := by decide

/-- Specification of a correctly forward-filled component value at a lower
bound: either no observation lies strictly before the bound and the carried
value is the initial 0, or the carried value is the value of the most recent
observation strictly before the bound. -/
def FillInv (A : List DailyVal) (v : ℚ) (lo : ℕ) : Prop :=
  (v = 0 ∧ ∀ a ∈ A, ¬ a.date < lo) ∨
  (∃ a ∈ A, a.date < lo ∧ (∀ a2 ∈ A, a2.date < lo → a2.date ≤ a.date) ∧ v = a.value)

/-- Specification of one combined output row: the total is the sum of the
two component contributions; a component observed on the date contributes
its observed value; a component not observed on the date but observed
earlier contributes the value of its most recent earlier observation. -/
def CombinedOk (A B : List DailyVal) (p : CombinedDaily) : Prop :=
  p.value = p.agthxValue + p.ancfxValue ∧
  (∀ a ∈ A, a.date = p.date → p.agthxValue = a.value) ∧
  (∀ b ∈ B, b.date = p.date → p.ancfxValue = b.value) ∧
  ((∀ a ∈ A, a.date ≠ p.date) → (∃ a0 ∈ A, a0.date < p.date) →
    ∃ a ∈ A, a.date < p.date ∧ (∀ a2 ∈ A, a2.date < p.date → a2.date ≤ a.date) ∧
      p.agthxValue = a.value) ∧
  ((∀ b ∈ B, b.date ≠ p.date) → (∃ b0 ∈ B, b0.date < p.date) →
    ∃ b ∈ B, b.date < p.date ∧ (∀ b2 ∈ B, b2.date < p.date → b2.date ≤ b.date) ∧
      p.ancfxValue = b.value)

theorem fillStep (A : List DailyVal) (hA : (A.map (fun x => x.date)).Nodup)
    (lo d : ℕ) (rest : List ℕ) (lastA : ℚ)
    (hlod : lo ≤ d)
    (hrest : ∀ e ∈ rest, d < e)
    (hfut : ∀ a ∈ A, a.date < lo ∨ a.date ∈ d :: rest)
    (hfill : FillInv A lastA lo) :
    (∀ a ∈ A, a.date = d →
      (lookupLast (A.map (fun x => (x.date, x.value))) d).getD lastA = a.value) ∧
    ((∀ a ∈ A, a.date ≠ d) → (∃ a0 ∈ A, a0.date < d) →
      ∃ a ∈ A, a.date < d ∧ (∀ a2 ∈ A, a2.date < d → a2.date ≤ a.date) ∧
        (lookupLast (A.map (fun x => (x.date, x.value))) d).getD lastA = a.value) ∧
    FillInv A ((lookupLast (A.map (fun x => (x.date, x.value))) d).getD lastA) (d + 1) ∧
    (∀ a ∈ A, a.date < d + 1 ∨ a.date ∈ rest) := by
  have kA : ((A.map (fun x => (x.date, x.value))).map Prod.fst).Nodup := by
    rw [List.map_map]
    exact hA
  have hwin : ∀ a ∈ A, (a.date < d ↔ a.date < lo) := by
    intro a ha
    constructor
    · intro h
      rcases hfut a ha with h2 | h2
      · exact h2
      · rcases List.mem_cons.mp h2 with h3 | h3
        · omega
        · have := hrest _ h3
          omega
    · intro h
      omega
  cases hlook : lookupLast (A.map (fun x => (x.date, x.value))) d with
  | some v =>
    obtain ⟨aw, haw, heq⟩ := List.mem_map.mp (lookupLast_mem hlook)
    have hawd : aw.date = d := by
      have := congrArg Prod.fst heq
      simpa using this
    have hawv : aw.value = v := by
      have := congrArg Prod.snd heq
      simpa using this
    refine ⟨?_, ?_, ?_, ?_⟩
    · intro a ha had
      have hsome : lookupLast (A.map (fun x => (x.date, x.value))) d = some a.value := by
        have hpair : ((d, a.value) : ℕ × ℚ) ∈ A.map (fun x => (x.date, x.value)) := by
          have hm := List.mem_map_of_mem (fun x : DailyVal => (x.date, x.value)) ha
          simp only [had] at hm
          exact hm
        exact lookupLast_eq_some_of_nodup kA hpair
      rw [hlook] at hsome
      have : v = a.value := by injection hsome
      simp [this]
    · intro hno _
      exact absurd hawd (hno aw haw)
    · right
      refine ⟨aw, haw, by omega, fun a2 ha2 h2 => by omega, by simp [hawv]⟩
    · intro a ha
      rcases hfut a ha with h2 | h2
      · left
        omega
      · rcases List.mem_cons.mp h2 with h3 | h3
        · left
          omega
        · right
          exact h3
  | none =>
    have hnone : ∀ a ∈ A, a.date ≠ d := by
      intro a ha had
      have hpair : ((a.date, a.value) : ℕ × ℚ) ∈ A.map (fun x => (x.date, x.value)) :=
        List.mem_map_of_mem _ ha
      exact (lookupLast_eq_none.mp hlook _ hpair) had
    have hwin2 : ∀ a ∈ A, (a.date < d + 1 ↔ a.date < lo) := by
      intro a ha
      have h1 := hwin a ha
      have h2 := hnone a ha
      omega
    refine ⟨?_, ?_, ?_, ?_⟩
    · intro a ha had
      exact absurd had (hnone a ha)
    · intro _ h0
      obtain ⟨a0, ha0, ha0d⟩ := h0
      rcases hfill with ⟨hv0, hnope⟩ | ⟨a, ha, halt, hamax, hav⟩
      · exact absurd ((hwin a0 ha0).mp ha0d) (hnope a0 ha0)
      · exact ⟨a, ha, (hwin a ha).mpr halt,
          fun a2 ha2 h2 => hamax a2 ha2 ((hwin a2 ha2).mp h2), by simpa using hav⟩
    · rcases hfill with ⟨hv0, hnope⟩ | ⟨a, ha, halt, hamax, hav⟩
      · left
        exact ⟨by simpa using hv0, fun a ha h => hnope a ha ((hwin2 a ha).mp h)⟩
      · right
        exact ⟨a, ha, (hwin2 a ha).mpr halt,
          fun a2 ha2 h2 => hamax a2 ha2 ((hwin2 a2 ha2).mp h2), by simpa using hav⟩
    · intro a ha
      rcases hfut a ha with h2 | h2
      · left
        omega
      · rcases List.mem_cons.mp h2 with h3 | h3
        · left
          omega
        · right
          exact h3

theorem combineGo_ok (A B : List DailyVal)
    (hA : (A.map (fun x => x.date)).Nodup) (hB : (B.map (fun x => x.date)).Nodup) :
    ∀ (ds : List ℕ) (lo : ℕ) (lastA lastB : ℚ),
      ds.Pairwise (fun a b => a < b) →
      (∀ e ∈ ds, lo ≤ e) →
      (∀ a ∈ A, a.date < lo ∨ a.date ∈ ds) →
      (∀ b ∈ B, b.date < lo ∨ b.date ∈ ds) →
      FillInv A lastA lo → FillInv B lastB lo →
      ∀ p ∈ combineGo (fun d => lookupLast (A.map (fun x => (x.date, x.value))) d)
          (fun d => lookupLast (B.map (fun x => (x.date, x.value))) d) lastA lastB ds,
        CombinedOk A B p := by
  intro ds
  induction ds with
  | nil =>
    intro lo lastA lastB _ _ _ _ _ _ p hp
    simp [combineGo] at hp
  | cons d rest ih =>
    intro lo lastA lastB hsorted hlo hAfut hBfut hfillA hfillB p hp
    have hpc := List.pairwise_cons.mp hsorted
    have hrest : ∀ e ∈ rest, d < e := hpc.1
    have hd : lo ≤ d := hlo d (List.mem_cons_self d rest)
    have hstepA := fillStep A hA lo d rest lastA hd hrest hAfut hfillA
    have hstepB := fillStep B hB lo d rest lastB hd hrest hBfut hfillB
    simp only [combineGo] at hp
    rcases List.mem_cons.mp hp with rfl | hp2
    · refine ⟨rfl, ?_, ?_, ?_, ?_⟩
      · intro a ha had
        exact hstepA.1 a ha had
      · intro b hb hbd
        exact hstepB.1 b hb hbd
      · intro hno h0
        exact hstepA.2.1 hno h0
      · intro hno h0
        exact hstepB.2.1 hno h0
    · exact ih (d + 1)
        ((lookupLast (A.map (fun x => (x.date, x.value))) d).getD lastA)
        ((lookupLast (B.map (fun x => (x.date, x.value))) d).getD lastB)
        hpc.2 (fun e he => hrest e he) hstepA.2.2.2 hstepB.2.2.2
        hstepA.2.2.1 hstepB.2.2.1 p hp2

/-- C1: in every combined mutual-fund portfolio, each output row sums the two
per-instrument last-known values; an instrument observed on the date
contributes exactly its observed value, and an instrument not observed on
the date but observed earlier contributes the value of its most recent
earlier observation (forward fill) — in particular the contribution is
nonzero whenever that earlier observed value is nonzero. -/
theorem combine_forward_fill (A B : List DailyVal)
    (hA : (A.map (fun x => x.date)).Nodup) (hB : (B.map (fun x => x.date)).Nodup) :
    ∀ p ∈ combineMutualFundPortfolio A B, CombinedOk A B p := by
  intro p hp
  unfold combineMutualFundPortfolio at hp
  have hkeys : (List.insertionSort (fun a b : ℕ => a ≤ b)
      (jsKeys (A.map (fun x => x.date) ++ B.map (fun x => x.date)))).Pairwise
      (fun a b : ℕ => a < b) := by
    have hnd : (List.insertionSort (fun a b : ℕ => a ≤ b)
        (jsKeys (A.map (fun x => x.date) ++ B.map (fun x => x.date)))).Nodup :=
      ((List.perm_insertionSort (fun a b : ℕ => a ≤ b) _).nodup_iff).mpr (jsKeys_nodup _)
    exact List.Sorted.lt_of_le (List.sorted_insertionSort (fun a b : ℕ => a ≤ b) _) hnd
  refine combineGo_ok A B hA hB _ 0 0 0 hkeys (fun e _ => Nat.zero_le e) ?_ ?_ ?_ ?_ p hp
  · intro a ha
    right
    rw [List.mem_insertionSort, mem_jsKeys]
    exact List.mem_append_left _ (List.mem_map_of_mem _ ha)
  · intro b hb
    right
    rw [List.mem_insertionSort, mem_jsKeys]
    exact List.mem_append_right _ (List.mem_map_of_mem _ hb)
  · left
    exact ⟨rfl, fun a _ h => Nat.not_lt_zero _ h⟩
  · left
    exact ⟨rfl, fun b _ h => Nat.not_lt_zero _ h⟩

theorem combine_forward_fill_witness :
    ({ date := 3, value := 50, agthxValue := 30, ancfxValue := 20 } : CombinedDaily).value =
      ({ date := 3, value := 50, agthxValue := 30, ancfxValue := 20 } :
        CombinedDaily).agthxValue +
      ({ date := 3, value := 50, agthxValue := 30, ancfxValue := 20 } :
        CombinedDaily).ancfxValue :=
  (combine_forward_fill [{ date := 1, value := 10 }, { date := 3, value := 30 }]
    [{ date := 2, value := 20 }] (by decide) (by decide)
    { date := 3, value := 50, agthxValue := 30, ancfxValue := 20 }
    (by
      have hms : combineMutualFundPortfolio
          [{ date := 1, value := 10 }, { date := 3, value := 30 }]
          [{ date := 2, value := 20 }] =
          [{ date := 1, value := 10, agthxValue := 10, ancfxValue := 0 },
           { date := 2, value := 30, agthxValue := 10, ancfxValue := 20 },
           { date := 3, value := 50, agthxValue := 30, ancfxValue := 20 }] := by
        norm_num [combineMutualFundPortfolio, combineGo, lookupLast, jsKeys, insertKey,
          List.insertionSort, List.orderedInsert]
      rw [hms]
      decide)).1

/-- C2: on each date with a positive reinvestment ratio the unit count is
multiplied by (1 + distRatio) before that day is valued at units * nav
(first conjunct, the general loop shape); consequently, for a 3-day series
with constant NAV 1.0 and a single distribution of ratio r on day 2, held
from U starting units, the day-3 value is exactly U * (1 + r) (second
conjunct). -/
theorem mmf_roundtrip_compounding :
    (∀ (iv units : ℚ) (item : TSPoint) (rest : List TSPoint),
      mmfDailyGo iv units (item :: rest) =
        { date := item.date,
          units := if 0 < item.distRatio then units * (1 + item.distRatio) else units,
          nav := item.nav,
          value := (if 0 < item.distRatio then units * (1 + item.distRatio) else units) *
            item.nav,
          changeFromStart :=
            ((if 0 < item.distRatio then units * (1 + item.distRatio) else units) *
              item.nav - iv) / iv * 100 } ::
          mmfDailyGo iv (if 0 < item.distRatio then units * (1 + item.distRatio) else units)
            rest) ∧
    (∀ (d1 d2 d3 sd : ℕ) (r U : ℚ), sd ≤ d1 → sd ≤ d2 → sd ≤ d3 → 0 ≤ r → 0 < U →
      (calculateMMFPortfolio [{ date := d1, nav := 1, distRatio := 0 },
        { date := d2, nav := 1, distRatio := r },
        { date := d3, nav := 1, distRatio := 0 }] U sd).dailyValues.map
        (fun p => p.value) = [U, U * (1 + r), U * (1 + r)]) := by
  constructor
  · intro iv units item rest
    by_cases h : 0 < item.distRatio
    · simp only [mmfDailyGo, mmfStepUnits, if_pos h]
      have hu : units + units * item.distRatio = units * (1 + item.distRatio) := by ring
      rw [hu]
    · simp only [mmfDailyGo, mmfStepUnits, if_neg h]
  · intro d1 d2 d3 sd r U h1 h2 h3 hr hU
    have hfil : ([{ date := d1, nav := 1, distRatio := 0 },
        { date := d2, nav := 1, distRatio := r },
        { date := d3, nav := 1, distRatio := 0 }] : List TSPoint).filter
        (fun item => sd ≤ item.date) =
        [{ date := d1, nav := 1, distRatio := 0 },
         { date := d2, nav := 1, distRatio := r },
         { date := d3, nav := 1, distRatio := 0 }] := by
      simp [List.filter, h1, h2, h3]
    simp only [calculateMMFPortfolio, hfil]
    rcases eq_or_lt_of_le hr with heq | hlt
    · simp [mmfDailyGo, mmfStepUnits, ← heq]
    · simp [mmfDailyGo, mmfStepUnits, hlt]
      ring

theorem mmf_roundtrip_compounding_witness :
    (calculateMMFPortfolio [{ date := 1, nav := 1, distRatio := 0 },
      { date := 2, nav := 1, distRatio := 1 / 2 },
      { date := 3, nav := 1, distRatio := 0 }] 100 0).dailyValues.map (fun p => p.value) =
      [100, 100 * (1 + 1 / 2), 100 * (1 + 1 / 2)] :=
  mmf_roundtrip_compounding.2 1 2 3 0 (1 / 2) 100 (by decide) (by decide) (by decide)
    (by norm_num) (by norm_num)

/-- C6: a start date past the last data point does not fail; both simulators
return their portfolio record with an empty dailyValues list and the initial
holdings unchanged — no EmptyWindow error exists in the code. -/
theorem empty_window_returns_result :
    calculateMMFPortfolio [{ date := 5, nav := 1, distRatio := 0 }] 3 10 =
      { initialUnits := 3, initialDate := 10, currentUnits := 3, dailyValues := [] } ∧
    calculateMutualFundsPortfolio [{ date := 5, nav := 1, distRatio := 0 }]
      [{ date := 6, nav := 2, distRatio := 0 }] 4 7 10 =
      { initialDate := 10, initialAGTHXUnits := 4, initialANCFXUnits := 7,
        currentAGTHXUnits := 4, currentANCFXUnits := 7, dailyValues := [] } := by
  constructor <;> rfl

/-- C7: a merged date whose NAV is absent (null) is not rejected; the
component loop multiplies the share count by the null NAV, JavaScript
coerces null to 0, and the day is recorded with value 0 — no
MissingPriceData error exists in the code. -/
theorem component_null_nav_valued_zero :
    (calculateMutualFundComponent [{ date := 1, nav := some 10 }, { date := 2, nav := none }]
      [] 100).map (fun p => (p.nav, p.value)) =
      [(some 10, JsVal.num 1000), (none, JsVal.num 0)] := by
  norm_num [calculateMutualFundComponent, componentGo, sortByDateAsc, List.insertionSort,
    List.orderedInsert, mergeNavAndDistributions, mergePointAt, jsKeys, insertKey,
    lookupLast, jsOrZero, jsTruthy, jsPos, jsMulV, navToJs, jsDivQ, Option.orElse]

theorem align_eq_filterMap (p1Daily p2Daily : List DailyVal) (allDates : List ℕ) (s : ℕ)
    (hfind : allDates.find? (fun d =>
      (lookupLast (p1Daily.map (fun x => (x.date, x.value))) d).isSome &&
      (lookupLast (p2Daily.map (fun x => (x.date, x.value))) d).isSome) = some s) :
    alignPortfolioSeries p1Daily p2Daily allDates =
      allDates.filterMap (fun d =>
        if s ≤ d then
          match lookupLast (p1Daily.map (fun x => (x.date, x.value))) d,
            lookupLast (p2Daily.map (fun x => (x.date, x.value))) d with
          | some v1, some v2 =>
            some { date := d, p1Value := v1, p2Value := v2,
                   p1Index := v1 /
                     ((lookupLast (p1Daily.map (fun x => (x.date, x.value))) s).getD 0) * 100,
                   p2Index := v2 /
                     ((lookupLast (p2Daily.map (fun x => (x.date, x.value))) s).getD 0) * 100,
                   difference := v2 /
                     ((lookupLast (p2Daily.map (fun x => (x.date, x.value))) s).getD 0) * 100 -
                     v1 /
                     ((lookupLast (p1Daily.map (fun x => (x.date, x.value))) s).getD 0) * 100 }
          | _, _ => none
        else none) := by
  simp only [alignPortfolioSeries, hfind]

/-- C8: when the two portfolios share a date and their values at the first
common date are nonzero, the aligned series contains a point at the first
common date whose two indices are exactly 100, and every aligned point
carries difference = p2Index - p1Index with each index equal to the value of
the day divided by the value at the first common date, times 100. -/
theorem align_index_base_and_difference (p1Daily p2Daily : List DailyVal)
    (allDates : List ℕ) (s : ℕ)
    (hfind : allDates.find? (fun d =>
      (lookupLast (p1Daily.map (fun x => (x.date, x.value))) d).isSome &&
      (lookupLast (p2Daily.map (fun x => (x.date, x.value))) d).isSome) = some s)
    (h1 : (lookupLast (p1Daily.map (fun x => (x.date, x.value))) s).getD 0 ≠ 0)
    (h2 : (lookupLast (p2Daily.map (fun x => (x.date, x.value))) s).getD 0 ≠ 0) :
    (∃ pt ∈ alignPortfolioSeries p1Daily p2Daily allDates,
      pt.date = s ∧ pt.p1Index = 100 ∧ pt.p2Index = 100) ∧
    (∀ pt ∈ alignPortfolioSeries p1Daily p2Daily allDates,
      pt.difference = pt.p2Index - pt.p1Index ∧
      pt.p1Index = pt.p1Value /
        ((lookupLast (p1Daily.map (fun x => (x.date, x.value))) s).getD 0) * 100 ∧
      pt.p2Index = pt.p2Value /
        ((lookupLast (p2Daily.map (fun x => (x.date, x.value))) s).getD 0) * 100) := by
  have hmem : s ∈ allDates := List.mem_of_find?_eq_some hfind
  have hpred := List.find?_some hfind
  rw [Bool.and_eq_true] at hpred
  obtain ⟨v1, hv1⟩ := Option.isSome_iff_exists.mp hpred.1
  obtain ⟨v2, hv2⟩ := Option.isSome_iff_exists.mp hpred.2
  rw [align_eq_filterMap p1Daily p2Daily allDates s hfind]
  constructor
  · refine ⟨⟨s, v1, v2,
      v1 / ((lookupLast (p1Daily.map (fun x => (x.date, x.value))) s).getD 0) * 100,
      v2 / ((lookupLast (p2Daily.map (fun x => (x.date, x.value))) s).getD 0) * 100,
      v2 / ((lookupLast (p2Daily.map (fun x => (x.date, x.value))) s).getD 0) * 100 -
        v1 / ((lookupLast (p1Daily.map (fun x => (x.date, x.value))) s).getD 0) * 100⟩,
      List.mem_filterMap.mpr ⟨s, hmem, ?_⟩, rfl, ?_, ?_⟩
    · rw [if_pos (le_refl s), hv1, hv2]
    · show v1 / ((lookupLast (p1Daily.map (fun x => (x.date, x.value))) s).getD 0) * 100 = 100
      rw [hv1, Option.getD_some, div_self (by rw [hv1, Option.getD_some] at h1; exact h1)]
      norm_num
    · show v2 / ((lookupLast (p2Daily.map (fun x => (x.date, x.value))) s).getD 0) * 100 = 100
      rw [hv2, Option.getD_some, div_self (by rw [hv2, Option.getD_some] at h2; exact h2)]
      norm_num
  · intro pt hpt
    obtain ⟨d, hd, hf⟩ := List.mem_filterMap.mp hpt
    by_cases hsd : s ≤ d
    · rw [if_pos hsd] at hf
      cases hx1 : lookupLast (p1Daily.map (fun x => (x.date, x.value))) d with
      | none => rw [hx1] at hf; cases hf
      | some w1 =>
        cases hx2 : lookupLast (p2Daily.map (fun x => (x.date, x.value))) d with
        | none => rw [hx1, hx2] at hf; cases hf
        | some w2 =>
          rw [hx1, hx2] at hf
          have hpt2 := Option.some.inj hf
          rw [← hpt2]
          exact ⟨rfl, rfl, rfl⟩
    · rw [if_neg hsd] at hf
      cases hf

theorem align_index_base_and_difference_witness :
    (∃ pt ∈ alignPortfolioSeries
        [{ date := 1, value := 10 }, { date := 2, value := 11 }]
        [{ date := 2, value := 20 }, { date := 3, value := 21 }] [1, 2, 3],
      pt.date = 2 ∧ pt.p1Index = 100 ∧ pt.p2Index = 100) :=
  (align_index_base_and_difference
    [{ date := 1, value := 10 }, { date := 2, value := 11 }]
    [{ date := 2, value := 20 }, { date := 3, value := 21 }] [1, 2, 3] 2
    (by decide) (by decide) (by decide)).1

theorem find?_some_min_of_sorted {p : ℕ → Bool} :
    ∀ {l : List ℕ}, l.Pairwise (fun a b => a ≤ b) → ∀ {s : ℕ}, l.find? p = some s →
      ∀ d ∈ l, p d = true → s ≤ d := by
  intro l
  induction l with
  | nil =>
    intro _ s h
    simp at h
  | cons a rest ih =>
    intro hsorted s hfind d hd hpd
    by_cases hpa : p a
    · rw [List.find?_cons_of_pos _ hpa] at hfind
      have hsa : s = a := (Option.some.inj hfind).symm
      subst hsa
      rcases List.mem_cons.mp hd with rfl | hd2
      · exact le_refl d
      · exact (List.pairwise_cons.mp hsorted).1 d hd2
    · rw [List.find?_cons_of_neg _ hpa] at hfind
      rcases List.mem_cons.mp hd with rfl | hd2
      · exact absurd hpd hpa
      · exact ih (List.pairwise_cons.mp hsorted).2 hfind d hd2 hpd

/-- C10: with a sorted date axis covering both portfolios and at least one
common date, the date set of the aligned comparison series is exactly the
intersection of the two portfolios own date sets — a date where only one
portfolio has a value is omitted entirely, never forward-filled (the first
common date is the minimum of the intersection, so the intersection and its
tail from that date coincide). -/
theorem align_dates_intersection (p1Daily p2Daily : List DailyVal) (allDates : List ℕ)
    (hsub1 : ∀ x ∈ p1Daily, x.date ∈ allDates) (hsub2 : ∀ x ∈ p2Daily, x.date ∈ allDates)
    (hsorted : allDates.Pairwise (fun a b => a ≤ b))
    (hex : ∃ d0 ∈ allDates,
      d0 ∈ p1Daily.map (fun x => x.date) ∧ d0 ∈ p2Daily.map (fun x => x.date)) :
    ∀ d : ℕ, (∃ pt ∈ alignPortfolioSeries p1Daily p2Daily allDates, pt.date = d) ↔
      (d ∈ p1Daily.map (fun x => x.date) ∧ d ∈ p2Daily.map (fun x => x.date)) := by
  have hbr1 : ∀ d : ℕ, (lookupLast (p1Daily.map (fun x => (x.date, x.value))) d).isSome ↔
      d ∈ p1Daily.map (fun x => x.date) := by
    intro d
    rw [lookupLast_isSome_iff]
    constructor
    · rintro ⟨q, hq, hqd⟩
      obtain ⟨x, hx, rfl⟩ := List.mem_map.mp hq
      exact hqd ▸ List.mem_map_of_mem _ hx
    · intro hd
      obtain ⟨x, hx, rfl⟩ := List.mem_map.mp hd
      exact ⟨(x.date, x.value), List.mem_map_of_mem _ hx, rfl⟩
  have hbr2 : ∀ d : ℕ, (lookupLast (p2Daily.map (fun x => (x.date, x.value))) d).isSome ↔
      d ∈ p2Daily.map (fun x => x.date) := by
    intro d
    rw [lookupLast_isSome_iff]
    constructor
    · rintro ⟨q, hq, hqd⟩
      obtain ⟨x, hx, rfl⟩ := List.mem_map.mp hq
      exact hqd ▸ List.mem_map_of_mem _ hx
    · intro hd
      obtain ⟨x, hx, rfl⟩ := List.mem_map.mp hd
      exact ⟨(x.date, x.value), List.mem_map_of_mem _ hx, rfl⟩
  obtain ⟨d0, hd0mem, hd01, hd02⟩ := hex
  have hpd0 : ((lookupLast (p1Daily.map (fun x => (x.date, x.value))) d0).isSome &&
      (lookupLast (p2Daily.map (fun x => (x.date, x.value))) d0).isSome) = true := by
    rw [Bool.and_eq_true]
    exact ⟨(hbr1 d0).mpr hd01, (hbr2 d0).mpr hd02⟩
  obtain ⟨s, hfind⟩ : ∃ s, allDates.find? (fun d =>
      (lookupLast (p1Daily.map (fun x => (x.date, x.value))) d).isSome &&
      (lookupLast (p2Daily.map (fun x => (x.date, x.value))) d).isSome) = some s := by
    cases hf : allDates.find? (fun d =>
        (lookupLast (p1Daily.map (fun x => (x.date, x.value))) d).isSome &&
        (lookupLast (p2Daily.map (fun x => (x.date, x.value))) d).isSome) with
    | some s => exact ⟨s, rfl⟩
    | none =>
      have hno := List.find?_eq_none.mp hf d0 hd0mem
      exact absurd hpd0 (by simpa using hno)
  have halign := align_eq_filterMap p1Daily p2Daily allDates s hfind
  intro d
  constructor
  · rintro ⟨pt, hpt, rfl⟩
    rw [halign] at hpt
    obtain ⟨e, he, hf⟩ := List.mem_filterMap.mp hpt
    by_cases hse : s ≤ e
    · rw [if_pos hse] at hf
      cases hx1 : lookupLast (p1Daily.map (fun x => (x.date, x.value))) e with
      | none => rw [hx1] at hf; cases hf
      | some w1 =>
        cases hx2 : lookupLast (p2Daily.map (fun x => (x.date, x.value))) e with
        | none => rw [hx1, hx2] at hf; cases hf
        | some w2 =>
          rw [hx1, hx2] at hf
          have hpt2 := Option.some.inj hf
          have hdate : pt.date = e := by rw [← hpt2]
          rw [hdate]
          exact ⟨(hbr1 e).mp (by rw [hx1]; rfl), (hbr2 e).mp (by rw [hx2]; rfl)⟩
    · rw [if_neg hse] at hf
      cases hf
  · rintro ⟨hd1, hd2⟩
    obtain ⟨w1, hw1⟩ := Option.isSome_iff_exists.mp ((hbr1 d).mpr hd1)
    obtain ⟨w2, hw2⟩ := Option.isSome_iff_exists.mp ((hbr2 d).mpr hd2)
    have hdmem : d ∈ allDates := by
      obtain ⟨x, hx, rfl⟩ := List.mem_map.mp hd1
      exact hsub1 x hx
    have hsd : s ≤ d := by
      refine find?_some_min_of_sorted hsorted hfind d hdmem ?_
      rw [Bool.and_eq_true]
      constructor
      · rw [hw1]
        rfl
      · rw [hw2]
        rfl
    refine ⟨⟨d, w1, w2,
      w1 / ((lookupLast (p1Daily.map (fun x => (x.date, x.value))) s).getD 0) * 100,
      w2 / ((lookupLast (p2Daily.map (fun x => (x.date, x.value))) s).getD 0) * 100,
      w2 / ((lookupLast (p2Daily.map (fun x => (x.date, x.value))) s).getD 0) * 100 -
        w1 / ((lookupLast (p1Daily.map (fun x => (x.date, x.value))) s).getD 0) * 100⟩,
      ?_, rfl⟩
    rw [halign]
    refine List.mem_filterMap.mpr ⟨d, hdmem, ?_⟩
    rw [if_pos hsd, hw1, hw2]

theorem align_dates_intersection_witness :
    (∃ pt ∈ alignPortfolioSeries
        [{ date := 1, value := 10 }, { date := 2, value := 11 }, { date := 4, value := 12 }]
        [{ date := 2, value := 20 }, { date := 3, value := 21 }, { date := 4, value := 22 }]
        [1, 2, 3, 4],
      pt.date = 4) ↔
      ((4 : ℕ) ∈ ([{ date := 1, value := 10 }, { date := 2, value := 11 },
        { date := 4, value := 12 }] : List DailyVal).map (fun x => x.date) ∧
       (4 : ℕ) ∈ ([{ date := 2, value := 20 }, { date := 3, value := 21 },
        { date := 4, value := 22 }] : List DailyVal).map (fun x => x.date)) :=
  align_dates_intersection
    [{ date := 1, value := 10 }, { date := 2, value := 11 }, { date := 4, value := 12 }]
    [{ date := 2, value := 20 }, { date := 3, value := 21 }, { date := 4, value := 22 }]
    [1, 2, 3, 4] (by decide) (by decide) (by decide)
    ⟨2, by decide, by decide, by decide⟩ 4

/-- C9 counterexample: for a one-point series the summary volatility is NaN,
not the explicit zero the specification promises — the 0/0 average of an
empty return sample propagates NaN through the variance and Math.sqrt, and
the countReturns = 0 case has no guard (unlike the annualized-return
branch). -/
theorem summarize_one_point_volatility_nan_cex :
    ((summarizePortfolio (fun q => q) (fun b _ => b) [{ date := 0, value := 5 }]).map
      (fun su => su.volatility)) = some JsVal.nan ∧ JsVal.nan ≠ JsVal.num 0 := by
  constructor
  · norm_num [summarizePortfolio, returnsAccum, minScan, maxScan, yearMs, jsDivQ, jsDivV,
      jsAddV, jsSubV, jsMulV, jsNegV, jsSqrtV, jsPowV]
  · decide

/-- C9 (amended): a portfolio with exactly one daily value point gets
annualizedReturn reported as the explicit number 0 (the sub-week guard) and
volatility reported as NaN (the degenerate flag JavaScript produces, which
the display layer renders as 0.00); nothing is thrown, the summary record is
returned normally, and this holds for every Math.sqrt / Math.pow kernel. -/
theorem summarize_one_point_degenerate (sqrtQ : ℚ → ℚ) (powQ : ℚ → ℚ → ℚ)
    (d : ℕ) (v : ℚ) :
    (summarizePortfolio sqrtQ powQ [{ date := d, value := v }]).map
      (fun su => (su.annualizedReturn, su.volatility)) =
      some (JsVal.num 0, JsVal.nan) := by
  norm_num [summarizePortfolio, returnsAccum, minScan, maxScan, yearMs, jsDivQ, jsDivV,
    jsAddV, jsSubV, jsMulV, jsNegV, jsSqrtV, jsPowV]

end FundFetcher
